import Mathlib

/-!
Shallow embedding of `dprint-plugin-sql` (`src/lib.rs`): the configuration
resolver `resolve_config` and the post-format pipeline `format_text`.

Text is modelled as `List Char`.  The external SQL formatter (`sqlformat`)
is opaque and is passed in as a function argument.  The helpers from the
`dprint-core` crate (`get_value`, `get_unknown_property_diagnostics`,
`resolve_new_line_kind`, `RECOMMENDED_GLOBAL_CONFIGURATION`) are not part of
this repository's sources and are modelled from the spec where marked.
-/

/-- Line-ending kinds, mirroring `dprint_core::configuration::NewLineKind`
as used by `src/lib.rs` (enum values per the spec:
LineFeed, CarriageReturnLineFeed, System, Auto). -/
inductive NewLineKind where
  | LineFeed
  | CarriageReturnLineFeed
  | System
  | Auto
  deriving DecidableEq

/-- Modelled from the spec: the override map's dynamically-typed values form
a closed tagged union Bool / Int / Str / Null (spec section 9), mirroring
`dprint_core::configuration::ConfigKeyValue` as consumed by this plugin. -/
inductive ConfigKeyValue where
  | bool (b : Bool)
  | int (n : Int)
  | str (s : String)
  | null
  deriving DecidableEq

/-- The raw override map handed to `resolve_config`
(`dprint_core::configuration::ConfigKeyMap`): string keys to dynamic values. -/
abbrev ConfigKeyMap := List (String × ConfigKeyValue)

/-- A configuration diagnostic `{property_name, message}`
(`dprint_core::configuration::ConfigurationDiagnostic`). -/
structure Diagnostic where
  property_name : String
  message : String
  deriving DecidableEq

/-- Global (cross-plugin) settings
(`dprint_core::configuration::GlobalConfiguration`): every field may be
absent.  Only the three fields read by `src/lib.rs` are modelled. -/
structure GlobalConfiguration where
  use_tabs : Option Bool
  indent_width : Option Nat
  new_line_kind : Option NewLineKind
  deriving DecidableEq

/-- The empty global configuration (`Default::default()` in Rust). -/
def emptyGlobalConfiguration : GlobalConfiguration :=
  { use_tabs := none, indent_width := none, new_line_kind := none }

/-- The compiled-in recommended defaults, all fields populated
(`dprint_core::configuration::RECOMMENDED_GLOBAL_CONFIGURATION`).
Modelled from the spec: use_tabs = false, indent_width = 2,
new_line_kind = LineFeed (spec section 4.1 default table). -/
structure RecommendedGlobalConfiguration where
  use_tabs : Bool
  indent_width : Nat
  new_line_kind : NewLineKind

def RECOMMENDED_GLOBAL_CONFIGURATION : RecommendedGlobalConfiguration :=
  { use_tabs := false, indent_width := 2, new_line_kind := NewLineKind.LineFeed }

/-- The plugin's resolved configuration (`Configuration` in `src/lib.rs`,
lines 21-29): exactly these five fields. -/
structure Configuration where
  use_tabs : Bool
  indent_width : Nat
  new_line_kind : NewLineKind
  uppercase : Bool
  lines_between_queries : Nat
  deriving DecidableEq

/-- First-match lookup of a key in the override map. -/
def lookupKey : ConfigKeyMap → String → Option ConfigKeyValue
  | [], _ => none
  | p :: rest, k => if p.1 = k then some p.2 else lookupKey rest k

/-- Removal of a key from the override map (the accessor consumes the
entries it reads, so that leftover keys are exactly the unknown ones). -/
def removeKey (m : ConfigKeyMap) (k : String) : ConfigKeyMap :=
  m.filter fun p => p.1 != k

/-- Parse a dynamic value as a boolean (for `useTabs` / `uppercase`). -/
def parseBool : ConfigKeyValue → Option Bool
  | ConfigKeyValue.bool b => some b
  | _ => none

/-- Modelled from the spec: `indentWidth` values must be positive integers
in 1-255 (spec section 3: "indent_width: positive integer (1-255)");
anything else fails validation. -/
def parseIndentWidth : ConfigKeyValue → Option Nat
  | ConfigKeyValue.int n => if 1 ≤ n ∧ n ≤ 255 then some n.toNat else none
  | _ => none

/-- Parse a dynamic value as an unsigned byte (for `linesBetweenQueries`,
a non-negative integer fitting in u8). -/
def parseU8 : ConfigKeyValue → Option Nat
  | ConfigKeyValue.int n => if 0 ≤ n ∧ n ≤ 255 then some n.toNat else none
  | _ => none

/-- Parse a dynamic value as a `NewLineKind` from its string form. -/
def parseNewLineKind : ConfigKeyValue → Option NewLineKind
  | ConfigKeyValue.str s =>
    if s = "lf" then some NewLineKind.LineFeed
    else if s = "crlf" then some NewLineKind.CarriageReturnLineFeed
    else if s = "auto" then some NewLineKind.Auto
    else if s = "system" then some NewLineKind.System
    else none
  | _ => none

def invalidValueMessage : String := "invalid value for configuration property"

def unknownPropertyMessage : String := "unknown property in configuration"

/-- Modelled from the spec: `dprint_core::configuration::get_value` — the
typed accessor used by `resolve_config`.  It removes the entry for `key`
from the map; if the value parses it is returned, otherwise a diagnostic
naming the key is emitted and the fallback default is used; an absent key
silently yields the default (spec section 4.1 validation-failure policy). -/
def getValue {α : Type} (m : ConfigKeyMap) (key : String) (default : α)
    (parse : ConfigKeyValue → Option α) : α × ConfigKeyMap × List Diagnostic :=
  match lookupKey m key with
  | none => (default, m, [])
  | some v =>
    match parse v with
    | some a => (a, removeKey m key, [])
    | none => (default, removeKey m key, [⟨key, invalidValueMessage⟩])

/-- Modelled from the spec: after the recognized keys are consumed, every
remaining key is reported as an unrecognized-configuration-key diagnostic
(`dprint_core::configuration::get_unknown_property_diagnostics`). -/
def getUnknownPropertyDiagnostics (m : ConfigKeyMap) : List Diagnostic :=
  m.map fun p => ⟨p.1, unknownPropertyMessage⟩

/-- `dprint_core::plugins::FileMatchingInfo`. -/
structure FileMatchingInfo where
  file_extensions : List String
  file_names : List String
  deriving DecidableEq

/-- `dprint_core::plugins::PluginResolveConfigurationResult<Configuration>`. -/
structure PluginResolveConfigurationResult where
  config : Configuration
  diagnostics : List Diagnostic
  file_matching : FileMatchingInfo
  deriving DecidableEq

/-- `resolve_config` from `src/lib.rs` lines 152-198: resolves the five
fields in source order (useTabs, indentWidth, newLineKind, uppercase,
linesBetweenQueries), threading the map through the accessor so consumed
keys are removed, then reports every leftover key as unknown. -/
def resolve_config (config : ConfigKeyMap) (global_config : GlobalConfiguration) :
    PluginResolveConfigurationResult :=
  let rUseTabs := getValue config "useTabs"
    (global_config.use_tabs.getD RECOMMENDED_GLOBAL_CONFIGURATION.use_tabs) parseBool
  let rIndentWidth := getValue rUseTabs.2.1 "indentWidth"
    (global_config.indent_width.getD RECOMMENDED_GLOBAL_CONFIGURATION.indent_width)
    parseIndentWidth
  let rNewLineKind := getValue rIndentWidth.2.1 "newLineKind"
    (global_config.new_line_kind.getD RECOMMENDED_GLOBAL_CONFIGURATION.new_line_kind)
    parseNewLineKind
  let rUppercase := getValue rNewLineKind.2.1 "uppercase" false parseBool
  let rLinesBetweenQueries := getValue rUppercase.2.1 "linesBetweenQueries" 1 parseU8
  { config :=
      { use_tabs := rUseTabs.1
        indent_width := rIndentWidth.1
        new_line_kind := rNewLineKind.1
        uppercase := rUppercase.1
        lines_between_queries := rLinesBetweenQueries.1 }
    diagnostics :=
      rUseTabs.2.2 ++ rIndentWidth.2.2 ++ rNewLineKind.2.2 ++ rUppercase.2.2 ++
      rLinesBetweenQueries.2.2 ++ getUnknownPropertyDiagnostics rLinesBetweenQueries.2.1
    file_matching := { file_extensions := ["sql"], file_names := [] } }

/-- Indentation mode for the external formatter (`sqlformat::Indent`). -/
inductive Indent where
  | tabs
  | spaces (n : Nat)
  deriving DecidableEq

/-- The format options derived for the external formatter
(`sqlformat::FormatOptions`); only the fields set by `src/lib.rs` are
modelled, the remaining options keep the formatter library's defaults and
are folded into the opaque formatter function. -/
structure FormatOptions where
  indent : Indent
  uppercase : Option Bool
  lines_between_queries : Nat
  deriving DecidableEq

/-- The option derivation performed inline in `format_text`
(`src/lib.rs` lines 205-214). -/
def deriveOptions (config : Configuration) : FormatOptions :=
  { indent := if config.use_tabs then Indent.tabs else Indent.spaces config.indent_width
    uppercase := some config.uppercase
    lines_between_queries := config.lines_between_queries }

/-- Rust `str::replace("\r\n", "\n")`: every carriage-return+line-feed pair
is collapsed to a bare line-feed, scanning left to right. -/
def replaceCrlfLf : List Char → List Char
  | [] => []
  | [c] => [c]
  | c1 :: c2 :: rest =>
    if c1 = '\r' ∧ c2 = '\n' then '\n' :: replaceCrlfLf rest
    else c1 :: replaceCrlfLf (c2 :: rest)

/-- Rust `str::replace("\n", "\r\n")`: every line-feed is expanded to a
carriage-return+line-feed pair, scanning left to right. -/
def replaceLfCrlf : List Char → List Char
  | [] => []
  | c :: rest =>
    if c = '\n' then '\r' :: '\n' :: replaceLfCrlf rest
    else c :: replaceLfCrlf rest

/-- Number of carriage-return+line-feed pairs in the text. -/
def countCrlf : List Char → Nat
  | [] => 0
  | [_] => 0
  | c1 :: c2 :: rest =>
    (if c1 = '\r' ∧ c2 = '\n' then 1 else 0) + countCrlf (c2 :: rest)

/-- Modelled from the spec:
`dprint_core::configuration::resolve_new_line_kind` — resolves the
configured kind against the text, returning the concrete terminator; for
the explicit LineFeed / CarriageReturnLineFeed kinds the answer is fixed,
for the Auto / System style kinds it inspects the text's existing dominant
line ending (spec section 4.2 step 4). -/
def resolveNewLineKind (text : List Char) : NewLineKind → List Char
  | NewLineKind.LineFeed => ['\n']
  | NewLineKind.CarriageReturnLineFeed => ['\r', '\n']
  | _ => if 2 * countCrlf text > text.count '\n' then ['\r', '\n'] else ['\n']

/-- The trailing-newline step of `format_text` (`src/lib.rs` lines 217-224):
append exactly one line-feed when the text does not already end in one. -/
def ensureTrailingNewline (text : List Char) : List Char :=
  if text.getLast? = some '\n' then text else text ++ ['\n']

/-- The line-ending step of `format_text` (`src/lib.rs` lines 226-232):
if the resolved terminator is a bare line-feed, collapse CRLF pairs;
otherwise collapse CRLF pairs first and then expand every LF to CRLF. -/
def applyNewLineKind (text : List Char) (kind : NewLineKind) : List Char :=
  if resolveNewLineKind text kind = ['\n'] then replaceCrlfLf text
  else replaceLfCrlf (replaceCrlfLf text)

/-- `format_text` from `src/lib.rs` lines 200-239.  The external formatter
(`sqlformat::format`, called with `QueryParams::None` and the derived
options) is opaque and passed as `formatter`.  The result mirrors the Rust
signature `Result<Option<String>>`: `Ok(None)` means unchanged, and the body
only ever produces `Ok`. -/
def formatText (formatter : FormatOptions → List Char → List Char)
    (text : List Char) (config : Configuration) :
    Except String (Option (List Char)) :=
  let input_text := text
  let text := formatter (deriveOptions config) text
  let text := ensureTrailingNewline text
  let text := applyNewLineKind text config.new_line_kind
  if text = input_text then Except.ok none else Except.ok (some text)

/-! ## Helper characterizations of the resolver -/

/-- The keys consumed by `resolve_config`, in source order. -/
def recognizedKeys : List String :=
  ["useTabs", "indentWidth", "newLineKind", "uppercase", "linesBetweenQueries"]

/-- Boolean test for a recognized key. -/
def isRecognized (k : String) : Bool :=
  k == "useTabs" || k == "indentWidth" || k == "newLineKind" ||
  k == "uppercase" || k == "linesBetweenQueries"

/-- Whether a dynamic value is valid for the given recognized key. -/
def isValidValue (k : String) (v : ConfigKeyValue) : Bool :=
  if k = "useTabs" then (parseBool v).isSome
  else if k = "indentWidth" then (parseIndentWidth v).isSome
  else if k = "newLineKind" then (parseNewLineKind v).isSome
  else if k = "uppercase" then (parseBool v).isSome
  else if k = "linesBetweenQueries" then (parseU8 v).isSome
  else false

/-- The value a single field resolves to: a valid override wins, otherwise
the fallback default. -/
def fieldValue {α : Type} (m : ConfigKeyMap) (k : String) (d : α)
    (parse : ConfigKeyValue → Option α) : α :=
  match lookupKey m k with
  | some v => (parse v).getD d
  | none => d

/-- The diagnostics a single field contributes: one entry exactly when the
key is present with an invalid value. -/
def fieldDiag {α : Type} (m : ConfigKeyMap) (k : String)
    (parse : ConfigKeyValue → Option α) : List Diagnostic :=
  match lookupKey m k with
  | some v =>
    match parse v with
    | some _ => []
    | none => [⟨k, invalidValueMessage⟩]
  | none => []

/-- Recognized keys of the map whose supplied value fails validation. -/
def badKeys (m : ConfigKeyMap) : List String :=
  recognizedKeys.filter fun k =>
    match lookupKey m k with
    | some v => ! isValidValue k v
    | none => false

/-- Keys of the map that are not recognized by the resolver. -/
def unknownKeys (m : ConfigKeyMap) : List String :=
  (m.filter fun p => ! isRecognized p.1).map Prod.fst

/-- The restriction of the map to recognized keys carrying valid values. -/
def validPart (m : ConfigKeyMap) : ConfigKeyMap :=
  m.filter fun p => isRecognized p.1 && isValidValue p.1 p.2

/-- A sample configuration resolving line endings to bare line-feed. -/
def cfgLf : Configuration :=
  { use_tabs := false, indent_width := 2, new_line_kind := NewLineKind.LineFeed,
    uppercase := false, lines_between_queries := 1 }

/-- A sample configuration resolving line endings to CRLF. -/
def cfgCrlf : Configuration :=
  { use_tabs := false, indent_width := 2,
    new_line_kind := NewLineKind.CarriageReturnLineFeed,
    uppercase := false, lines_between_queries := 1 }

/-- A sample override map with one invalid recognized key and one unknown key. -/
def garbageMap : ConfigKeyMap :=
  [("useTabs", ConfigKeyValue.str "x"), ("junk", ConfigKeyValue.null)]

theorem isRecognized_iff (k : String) :
    isRecognized k = true ↔ k ∈ recognizedKeys := by
  simp [isRecognized, recognizedKeys, or_assoc]

theorem getValue_fst {α : Type} (m : ConfigKeyMap) (k : String) (d : α)
    (parse : ConfigKeyValue → Option α) :
    (getValue m k d parse).1 = fieldValue m k d parse := by
  cases h : lookupKey m k with
  | none => simp [getValue, fieldValue, h]
  | some v =>
    cases hp : parse v with
    | none => simp [getValue, fieldValue, h, hp]
    | some a => simp [getValue, fieldValue, h, hp]

theorem getValue_diag {α : Type} (m : ConfigKeyMap) (k : String) (d : α)
    (parse : ConfigKeyValue → Option α) :
    (getValue m k d parse).2.2 = fieldDiag m k parse := by
  cases h : lookupKey m k with
  | none => simp [getValue, fieldDiag, h]
  | some v =>
    cases hp : parse v with
    | none => simp [getValue, fieldDiag, h, hp]
    | some a => simp [getValue, fieldDiag, h, hp]

theorem removeKey_eq_self_of_lookup_none (m : ConfigKeyMap) (k : String)
    (h : lookupKey m k = none) : removeKey m k = m := by
  induction m with
  | nil => rfl
  | cons p rest ih =>
    unfold lookupKey at h
    by_cases hp : p.1 = k
    · simp [hp] at h
    · rw [if_neg hp] at h
      unfold removeKey at ih ⊢
      simp [List.filter_cons, bne_iff_ne, hp, ih h]

theorem getValue_map {α : Type} (m : ConfigKeyMap) (k : String) (d : α)
    (parse : ConfigKeyValue → Option α) :
    (getValue m k d parse).2.1 = removeKey m k := by
  cases h : lookupKey m k with
  | none =>
    rw [removeKey_eq_self_of_lookup_none m k h]
    simp [getValue, h]
  | some v =>
    cases hp : parse v with
    | none => simp [getValue, h, hp]
    | some a => simp [getValue, h, hp]

theorem lookupKey_removeKey_self (m : ConfigKeyMap) (k : String) :
    lookupKey (removeKey m k) k = none := by
  induction m with
  | nil => rfl
  | cons p rest ih =>
    unfold removeKey at ih ⊢
    by_cases hp : p.1 = k
    · simp [List.filter_cons, bne_iff_ne, hp, ih]
    · simp [List.filter_cons, bne_iff_ne, hp, lookupKey, ih]

theorem lookupKey_removeKey_ne (m : ConfigKeyMap) (k k' : String)
    (h : k' ≠ k) : lookupKey (removeKey m k) k' = lookupKey m k' := by
  induction m with
  | nil => rfl
  | cons p rest ih =>
    unfold removeKey at ih ⊢
    by_cases hp : p.1 = k
    · have hp' : p.1 ≠ k' := by rw [hp]; exact fun h2 => h h2.symm
      simp [List.filter_cons, bne_iff_ne, hp, lookupKey, hp', ih, Ne.symm h]
    · by_cases hq : p.1 = k'
      · simp [List.filter_cons, bne_iff_ne, hp, lookupKey, hq, h]
      · simp [List.filter_cons, bne_iff_ne, hp, lookupKey, hq, ih]

theorem fieldValue_congr {α : Type} {m m' : ConfigKeyMap} {k : String}
    (h : lookupKey m k = lookupKey m' k) (d : α)
    (parse : ConfigKeyValue → Option α) :
    fieldValue m k d parse = fieldValue m' k d parse := by
  unfold fieldValue
  rw [h]

theorem fieldDiag_congr {α : Type} {m m' : ConfigKeyMap} {k : String}
    (h : lookupKey m k = lookupKey m' k)
    (parse : ConfigKeyValue → Option α) :
    fieldDiag m k parse = fieldDiag m' k parse := by
  unfold fieldDiag
  rw [h]

theorem removeKey_chain (m : ConfigKeyMap) :
    removeKey (removeKey (removeKey (removeKey (removeKey m "useTabs") "indentWidth")
      "newLineKind") "uppercase") "linesBetweenQueries"
    = m.filter fun p => ! isRecognized p.1 := by
  unfold removeKey
  rw [List.filter_filter, List.filter_filter, List.filter_filter, List.filter_filter]
  apply List.filter_congr
  intro p _
  simp only [isRecognized, bne, Bool.not_or]
  ac_rfl

/-- Master characterization of `resolve_config`: each field resolves
independently from the original map via `fieldValue`, the diagnostics are
the per-field invalid-value reports in source order followed by one
unknown-property report per unrecognized key, and the file matching data is
the fixed `sql` descriptor. -/
theorem resolve_config_eq (m : ConfigKeyMap) (g : GlobalConfiguration) :
    resolve_config m g =
      { config :=
          { use_tabs := fieldValue m "useTabs" (g.use_tabs.getD false) parseBool
            indent_width := fieldValue m "indentWidth" (g.indent_width.getD 2) parseIndentWidth
            new_line_kind := fieldValue m "newLineKind"
              (g.new_line_kind.getD NewLineKind.LineFeed) parseNewLineKind
            uppercase := fieldValue m "uppercase" false parseBool
            lines_between_queries := fieldValue m "linesBetweenQueries" 1 parseU8 }
        diagnostics :=
          fieldDiag m "useTabs" parseBool ++ fieldDiag m "indentWidth" parseIndentWidth ++
          fieldDiag m "newLineKind" parseNewLineKind ++ fieldDiag m "uppercase" parseBool ++
          fieldDiag m "linesBetweenQueries" parseU8 ++
          (m.filter fun p => ! isRecognized p.1).map (fun p => ⟨p.1, unknownPropertyMessage⟩)
        file_matching := { file_extensions := ["sql"], file_names := [] } } := by
  have l2 : lookupKey (removeKey m "useTabs") "indentWidth" = lookupKey m "indentWidth" :=
    lookupKey_removeKey_ne _ _ _ (by decide)
  have l3 : lookupKey (removeKey (removeKey m "useTabs") "indentWidth") "newLineKind"
      = lookupKey m "newLineKind" := by
    rw [lookupKey_removeKey_ne _ _ _ (by decide), lookupKey_removeKey_ne _ _ _ (by decide)]
  have l4 : lookupKey (removeKey (removeKey (removeKey m "useTabs") "indentWidth")
      "newLineKind") "uppercase" = lookupKey m "uppercase" := by
    rw [lookupKey_removeKey_ne _ _ _ (by decide), lookupKey_removeKey_ne _ _ _ (by decide),
      lookupKey_removeKey_ne _ _ _ (by decide)]
  have l5 : lookupKey (removeKey (removeKey (removeKey (removeKey m "useTabs")
      "indentWidth") "newLineKind") "uppercase") "linesBetweenQueries"
      = lookupKey m "linesBetweenQueries" := by
    rw [lookupKey_removeKey_ne _ _ _ (by decide), lookupKey_removeKey_ne _ _ _ (by decide),
      lookupKey_removeKey_ne _ _ _ (by decide), lookupKey_removeKey_ne _ _ _ (by decide)]
  simp only [resolve_config, RECOMMENDED_GLOBAL_CONFIGURATION, getValue_fst, getValue_map,
    getValue_diag]
  rw [fieldValue_congr l2, fieldValue_congr l3, fieldValue_congr l4, fieldValue_congr l5,
    fieldDiag_congr l2, fieldDiag_congr l3, fieldDiag_congr l4, fieldDiag_congr l5,
    removeKey_chain]
  rfl

theorem filter_cons_append {α : Type} (p : α → Bool) (a : α) (l : List α) :
    List.filter p (a :: l) = (if p a = true then [a] else []) ++ List.filter p l := by
  by_cases h : p a = true <;> simp [List.filter_cons, h]

theorem fieldDiag_name_eq_filter {α : Type} (m : ConfigKeyMap) (k : String)
    (parse : ConfigKeyValue → Option α)
    (hv : ∀ v, isValidValue k v = (parse v).isSome) :
    (fieldDiag m k parse).map Diagnostic.property_name
      = if (match lookupKey m k with
            | some v => ! isValidValue k v
            | none => false) = true then [k] else [] := by
  cases h : lookupKey m k with
  | none => simp [fieldDiag, h]
  | some v =>
    cases hp : parse v with
    | none => simp [fieldDiag, h, hp, hv v]
    | some a => simp [fieldDiag, h, hp, hv v]

theorem resolve_config_diag_names (m : ConfigKeyMap) (g : GlobalConfiguration) :
    (resolve_config m g).diagnostics.map Diagnostic.property_name
      = badKeys m ++ unknownKeys m := by
  rw [resolve_config_eq]
  simp only [List.map_append]
  rw [fieldDiag_name_eq_filter m "useTabs" parseBool (fun v => rfl),
    fieldDiag_name_eq_filter m "indentWidth" parseIndentWidth (fun v => rfl),
    fieldDiag_name_eq_filter m "newLineKind" parseNewLineKind (fun v => rfl),
    fieldDiag_name_eq_filter m "uppercase" parseBool (fun v => rfl),
    fieldDiag_name_eq_filter m "linesBetweenQueries" parseU8 (fun v => rfl)]
  unfold badKeys recognizedKeys unknownKeys
  rw [filter_cons_append, filter_cons_append, filter_cons_append, filter_cons_append,
    filter_cons_append]
  simp [List.map_map, List.append_assoc, Function.comp]

theorem resolve_config_diag_nodup (m : ConfigKeyMap) (g : GlobalConfiguration)
    (hnd : (m.map Prod.fst).Nodup) :
    ((resolve_config m g).diagnostics.map Diagnostic.property_name).Nodup := by
  rw [resolve_config_diag_names]
  rw [List.nodup_append]
  refine ⟨List.Nodup.filter _ (by decide), ?_, ?_⟩
  · exact List.Nodup.sublist ((List.filter_sublist m).map Prod.fst) hnd
  · intro k hk1 hk2
    have h1 : k ∈ recognizedKeys := (List.mem_filter.mp hk1).1
    obtain ⟨p, hp, hpk⟩ := List.mem_map.mp hk2
    have h2 := (List.mem_filter.mp hp).2
    rw [hpk] at h2
    have h3 := (isRecognized_iff k).mpr h1
    simp [h3] at h2

theorem lookupKey_eq_none_of_not_mem (m : ConfigKeyMap) (k : String)
    (h : k ∉ m.map Prod.fst) : lookupKey m k = none := by
  induction m with
  | nil => rfl
  | cons p rest ih =>
    simp only [List.map_cons, List.mem_cons] at h
    push_neg at h
    unfold lookupKey
    rw [if_neg fun he => h.1 he.symm]
    exact ih h.2

theorem lookupKey_none_iff (m : ConfigKeyMap) (k : String) :
    lookupKey m k = none ↔ k ∉ m.map Prod.fst := by
  induction m with
  | nil => simp [lookupKey]
  | cons p rest ih =>
    simp only [List.map_cons, List.mem_cons]
    by_cases hp : p.1 = k
    · simp [lookupKey, hp]
    · simp only [lookupKey, if_neg hp, ih]
      constructor
      · intro h hor
        rcases hor with h1 | h2
        · exact hp h1.symm
        · exact h h2
      · intro h h2
        exact h (Or.inr h2)

theorem lookupKey_filter_none (m : ConfigKeyMap) (q : String × ConfigKeyValue → Bool)
    (k : String) (h : lookupKey m k = none) :
    lookupKey (m.filter q) k = none := by
  rw [lookupKey_none_iff] at h ⊢
  exact fun hmem => h (((List.filter_sublist m).map Prod.fst).mem hmem)

theorem lookupKey_filter_some (m : ConfigKeyMap) (q : String × ConfigKeyValue → Bool)
    (k : String) (v : ConfigKeyValue) (hnd : (m.map Prod.fst).Nodup)
    (h : lookupKey m k = some v) :
    lookupKey (m.filter q) k = if q (k, v) = true then some v else none := by
  induction m with
  | nil => simp [lookupKey] at h
  | cons p rest ih =>
    simp only [List.map_cons, List.nodup_cons] at hnd
    by_cases hp : p.1 = k
    · have hv : p.2 = v := by
        simp only [lookupKey, if_pos hp] at h
        exact Option.some.inj h
      have hkp : (k, v) = p := by rw [← hp, ← hv]
      have hnotin : k ∉ rest.map Prod.fst := hp ▸ hnd.1
      by_cases hq : q p = true
      · rw [List.filter_cons, if_pos hq]
        simp only [lookupKey, if_pos hp]
        rw [hkp, if_pos hq, hv]
      · rw [List.filter_cons, if_neg hq, hkp, if_neg hq]
        exact lookupKey_filter_none rest q k ((lookupKey_none_iff rest k).mpr hnotin)
    · have h' : lookupKey rest k = some v := by
        simpa only [lookupKey, if_neg hp] using h
      by_cases hq : q p = true
      · rw [List.filter_cons, if_pos hq]
        simp only [lookupKey, if_neg hp]
        exact ih hnd.2 h'
      · rw [List.filter_cons, if_neg hq]
        exact ih hnd.2 h'

theorem fieldValue_validPart {α : Type} (m : ConfigKeyMap) (k : String) (d : α)
    (parse : ConfigKeyValue → Option α) (hnd : (m.map Prod.fst).Nodup)
    (hrec : isRecognized k = true)
    (hv : ∀ v, isValidValue k v = (parse v).isSome) :
    fieldValue (validPart m) k d parse = fieldValue m k d parse := by
  unfold validPart
  cases h : lookupKey m k with
  | none =>
    unfold fieldValue
    rw [h, lookupKey_filter_none m _ k h]
  | some v =>
    have hf := lookupKey_filter_some m
      (fun p => isRecognized p.1 && isValidValue p.1 p.2) k v hnd h
    cases hp : parse v with
    | none =>
      have hcond : (isRecognized k && isValidValue k v) = false := by
        rw [hv v, hp]
        simp
      unfold fieldValue
      rw [h, hf]
      simp [hcond, hp]
    | some a =>
      have hcond : (isRecognized k && isValidValue k v) = true := by
        rw [hv v, hp, hrec]
        simp
      unfold fieldValue
      rw [h, hf]
      simp [hcond, hp]

theorem resolve_config_config_validPart (m : ConfigKeyMap) (g : GlobalConfiguration)
    (hnd : (m.map Prod.fst).Nodup) :
    (resolve_config m g).config = (resolve_config (validPart m) g).config := by
  rw [resolve_config_eq, resolve_config_eq]
  simp only [Configuration.mk.injEq]
  refine ⟨?_, ?_, ?_, ?_, ?_⟩
  · exact (fieldValue_validPart m "useTabs" _ parseBool hnd (by decide) (fun v => rfl)).symm
  · exact (fieldValue_validPart m "indentWidth" _ parseIndentWidth hnd (by decide)
      (fun v => rfl)).symm
  · exact (fieldValue_validPart m "newLineKind" _ parseNewLineKind hnd (by decide)
      (fun v => rfl)).symm
  · exact (fieldValue_validPart m "uppercase" _ parseBool hnd (by decide) (fun v => rfl)).symm
  · exact (fieldValue_validPart m "linesBetweenQueries" _ parseU8 hnd (by decide)
      (fun v => rfl)).symm

/-! ## Lemmas about the line-ending normalization -/

theorem replaceCrlfLf_eq_nil_iff : ∀ s : List Char, replaceCrlfLf s = [] ↔ s = []
  | [] => by simp [replaceCrlfLf]
  | [c] => by simp [replaceCrlfLf]
  | c1 :: c2 :: rest => by
    unfold replaceCrlfLf
    split <;> simp

theorem replaceLfCrlf_eq_nil_iff : ∀ s : List Char, replaceLfCrlf s = [] ↔ s = []
  | [] => by simp [replaceLfCrlf]
  | c :: rest => by
    unfold replaceLfCrlf
    split <;> simp

theorem getLast?_replaceCrlfLf : ∀ s : List Char,
    (replaceCrlfLf s).getLast? = s.getLast?
  | [] => by simp [replaceCrlfLf]
  | [c] => by simp [replaceCrlfLf]
  | c1 :: c2 :: rest => by
    have ih1 := getLast?_replaceCrlfLf rest
    have ih2 := getLast?_replaceCrlfLf (c2 :: rest)
    unfold replaceCrlfLf
    split
    · rename_i hcr
      obtain ⟨h1, h2⟩ := hcr
      subst h1 h2
      cases hrest : rest with
      | nil =>
        subst hrest
        simp [replaceCrlfLf]
      | cons x xs =>
        subst hrest
        cases hr : replaceCrlfLf (x :: xs) with
        | nil => exact absurd ((replaceCrlfLf_eq_nil_iff _).mp hr) (by simp)
        | cons y ys =>
          rw [List.getLast?_cons_cons, List.getLast?_cons_cons, List.getLast?_cons_cons,
            ← hr, ih1]
    · cases hr : replaceCrlfLf (c2 :: rest) with
      | nil => exact absurd ((replaceCrlfLf_eq_nil_iff _).mp hr) (by simp)
      | cons y ys =>
        rw [List.getLast?_cons_cons, List.getLast?_cons_cons, ← hr, ih2]

theorem getLast?_replaceLfCrlf : ∀ s : List Char,
    (replaceLfCrlf s).getLast? = s.getLast?
  | [] => by simp [replaceLfCrlf]
  | c :: rest => by
    have ih := getLast?_replaceLfCrlf rest
    unfold replaceLfCrlf
    split
    · rename_i hc
      subst hc
      cases hrest : rest with
      | nil =>
        subst hrest
        simp [replaceLfCrlf]
      | cons x xs =>
        subst hrest
        cases hr : replaceLfCrlf (x :: xs) with
        | nil => exact absurd ((replaceLfCrlf_eq_nil_iff _).mp hr) (by simp)
        | cons y ys =>
          rw [List.getLast?_cons_cons, List.getLast?_cons_cons, List.getLast?_cons_cons,
            ← hr, ih]
    · cases hrest : rest with
      | nil =>
        subst hrest
        simp [replaceLfCrlf]
      | cons x xs =>
        subst hrest
        cases hr : replaceLfCrlf (x :: xs) with
        | nil => exact absurd ((replaceLfCrlf_eq_nil_iff _).mp hr) (by simp)
        | cons y ys =>
          rw [List.getLast?_cons_cons, List.getLast?_cons_cons, ← hr, ih]

theorem getLast?_ensureTrailingNewline (s : List Char) :
    (ensureTrailingNewline s).getLast? = some '\n' := by
  unfold ensureTrailingNewline
  split
  · assumption
  · exact List.getLast?_concat s

theorem getLast?_applyNewLineKind (s : List Char) (k : NewLineKind)
    (h : s.getLast? = some '\n') :
    (applyNewLineKind s k).getLast? = some '\n' := by
  unfold applyNewLineKind
  split
  · rw [getLast?_replaceCrlfLf]
    exact h
  · rw [getLast?_replaceLfCrlf, getLast?_replaceCrlfLf]
    exact h

theorem fieldValue_of_absent_or_invalid {α : Type} (m : ConfigKeyMap) (k : String)
    (d : α) (parse : ConfigKeyValue → Option α)
    (h : ∀ v, lookupKey m k = some v → parse v = none) :
    fieldValue m k d parse = d := by
  cases hl : lookupKey m k with
  | none => simp [fieldValue, hl]
  | some v => simp [fieldValue, hl, h v hl]

theorem fieldValue_of_valid {α : Type} (m : ConfigKeyMap) (k : String) (d : α)
    (parse : ConfigKeyValue → Option α) (v : ConfigKeyValue) (a : α)
    (hl : lookupKey m k = some v) (hp : parse v = some a) :
    fieldValue m k d parse = a := by
  simp [fieldValue, hl, hp]

theorem parseIndentWidth_range (v : ConfigKeyValue) (a : Nat)
    (h : parseIndentWidth v = some a) : 1 ≤ a ∧ a ≤ 255 := by
  cases v <;> simp [parseIndentWidth] at h
  case int n =>
    obtain ⟨⟨h1, h2⟩, h3⟩ := h
    omega

/-! ## Claim theorems: configuration resolution -/

/-- C2: `resolve_config` is a total function (it is a plain Lean function
into `PluginResolveConfigurationResult`, whose `Configuration` field is
fully populated by construction); its diagnostics name exactly the
recognized keys whose supplied value fails validation followed by the
unrecognized keys — hence, for a map without duplicate keys, exactly one
diagnostic per such key and none for any other — and invalid or unknown
keys never affect the resolved field values: the configuration equals the
one resolved from the map restricted to valid recognized entries, so every
field falls back per the precedence chain. -/
theorem resolve_config_total (m : ConfigKeyMap) (g : GlobalConfiguration) :
    (resolve_config m g).diagnostics.map Diagnostic.property_name
        = badKeys m ++ unknownKeys m ∧
    ((m.map Prod.fst).Nodup →
      ((resolve_config m g).diagnostics.map Diagnostic.property_name).Nodup) ∧
    ((m.map Prod.fst).Nodup →
      (resolve_config m g).config = (resolve_config (validPart m) g).config) :=
  ⟨resolve_config_diag_names m g,
   fun h => resolve_config_diag_nodup m g h,
   fun h => resolve_config_config_validPart m g h⟩

/-- Witness for C2 at a concrete garbage map (one invalid recognized key,
one unknown key). -/
theorem resolve_config_total_witness :
    (resolve_config garbageMap emptyGlobalConfiguration).diagnostics.map
        Diagnostic.property_name = badKeys garbageMap ++ unknownKeys garbageMap ∧
    ((resolve_config garbageMap emptyGlobalConfiguration).diagnostics.map
        Diagnostic.property_name).Nodup ∧
    (resolve_config garbageMap emptyGlobalConfiguration).config
        = (resolve_config (validPart garbageMap) emptyGlobalConfiguration).config := by
  have h := resolve_config_total garbageMap emptyGlobalConfiguration
  exact ⟨h.1, h.2.1 (by decide), h.2.2 (by decide)⟩

/-- C6: with an empty override map and fully absent global settings,
`resolve_config` returns the compiled-in recommended defaults — use_tabs =
false, indent_width = 2, new_line_kind = LineFeed, uppercase = false,
lines_between_queries = 1 — and an empty diagnostics list. -/
theorem resolve_config_defaults :
    (resolve_config [] emptyGlobalConfiguration).config
        = { use_tabs := false, indent_width := 2,
            new_line_kind := NewLineKind.LineFeed, uppercase := false,
            lines_between_queries := 1 } ∧
    (resolve_config [] emptyGlobalConfiguration).diagnostics = [] :=
  ⟨rfl, rfl⟩

/-- C7: for use_tabs, indent_width and new_line_kind a present global value
is used whenever the override map supplies no valid value for the key, a
valid override takes precedence over the global value, the remaining fields
(uppercase, lines_between_queries) never consult the global settings, and
on the concrete example of an empty map with globals
{useTabs: true, newLineKind: CarriageReturnLineFeed} the resolver returns
use_tabs = true and new_line_kind = CarriageReturnLineFeed. -/
theorem resolve_config_global_precedence :
    (∀ (m : ConfigKeyMap) (g : GlobalConfiguration),
      (∀ b, g.use_tabs = some b →
        (∀ v, lookupKey m "useTabs" = some v → parseBool v = none) →
        (resolve_config m g).config.use_tabs = b) ∧
      (∀ n, g.indent_width = some n →
        (∀ v, lookupKey m "indentWidth" = some v → parseIndentWidth v = none) →
        (resolve_config m g).config.indent_width = n) ∧
      (∀ k, g.new_line_kind = some k →
        (∀ v, lookupKey m "newLineKind" = some v → parseNewLineKind v = none) →
        (resolve_config m g).config.new_line_kind = k) ∧
      (∀ v b, lookupKey m "useTabs" = some v → parseBool v = some b →
        (resolve_config m g).config.use_tabs = b) ∧
      (∀ v n, lookupKey m "indentWidth" = some v → parseIndentWidth v = some n →
        (resolve_config m g).config.indent_width = n) ∧
      (∀ v k, lookupKey m "newLineKind" = some v → parseNewLineKind v = some k →
        (resolve_config m g).config.new_line_kind = k) ∧
      (∀ g' : GlobalConfiguration,
        (resolve_config m g).config.uppercase
            = (resolve_config m g').config.uppercase ∧
        (resolve_config m g).config.lines_between_queries
            = (resolve_config m g').config.lines_between_queries)) ∧
    ((resolve_config []
        ⟨some true, none, some NewLineKind.CarriageReturnLineFeed⟩).config.new_line_kind
        = NewLineKind.CarriageReturnLineFeed ∧
     (resolve_config []
        ⟨some true, none, some NewLineKind.CarriageReturnLineFeed⟩).config.use_tabs
        = true) := by
  refine ⟨fun m g => ⟨?_, ?_, ?_, ?_, ?_, ?_, ?_⟩, rfl, rfl⟩
  · intro b hb h
    rw [resolve_config_eq]
    show fieldValue m "useTabs" (g.use_tabs.getD false) parseBool = b
    rw [fieldValue_of_absent_or_invalid m _ _ _ h, hb]
    rfl
  · intro n hn h
    rw [resolve_config_eq]
    show fieldValue m "indentWidth" (g.indent_width.getD 2) parseIndentWidth = n
    rw [fieldValue_of_absent_or_invalid m _ _ _ h, hn]
    rfl
  · intro k hk h
    rw [resolve_config_eq]
    show fieldValue m "newLineKind" (g.new_line_kind.getD NewLineKind.LineFeed)
      parseNewLineKind = k
    rw [fieldValue_of_absent_or_invalid m _ _ _ h, hk]
    rfl
  · intro v b hl hp
    rw [resolve_config_eq]
    exact fieldValue_of_valid m "useTabs" _ parseBool v b hl hp
  · intro v n hl hp
    rw [resolve_config_eq]
    exact fieldValue_of_valid m "indentWidth" _ parseIndentWidth v n hl hp
  · intro v k hl hp
    rw [resolve_config_eq]
    exact fieldValue_of_valid m "newLineKind" _ parseNewLineKind v k hl hp
  · intro g'
    rw [resolve_config_eq m g, resolve_config_eq m g']
    exact ⟨rfl, rfl⟩

/-- Witness for C7: global use_tabs applies with an empty override map, and
a valid override beats a conflicting global. -/
theorem resolve_config_global_precedence_witness :
    (resolve_config [] ⟨some true, none, none⟩).config.use_tabs = true ∧
    (resolve_config [("useTabs", ConfigKeyValue.bool false)]
        ⟨some true, none, none⟩).config.use_tabs = false := by
  have h1 := (resolve_config_global_precedence.1 [] ⟨some true, none, none⟩).1
  have h2 := (resolve_config_global_precedence.1
    [("useTabs", ConfigKeyValue.bool false)] ⟨some true, none, none⟩).2.2.2.1
  exact ⟨h1 true rfl (fun v hv => nomatch hv), h2 (ConfigKeyValue.bool false) false rfl rfl⟩

/-- C8 counterexample: the claim says `inline` is a recognized key for which
no unrecognized-configuration-key diagnostic is emitted; but supplying
`inline` with a well-typed boolean value yields exactly one diagnostic for
`inline`, and it is the unknown-property diagnostic. -/
theorem resolve_config_inline_unrecognized :
    (resolve_config [("inline", ConfigKeyValue.bool true)]
        emptyGlobalConfiguration).diagnostics.map Diagnostic.property_name
      = ["inline"] ∧
    (resolve_config [("inline", ConfigKeyValue.bool true)]
        emptyGlobalConfiguration).diagnostics.map Diagnostic.message
      = [unknownPropertyMessage] :=
  ⟨rfl, rfl⟩

/-- C8 amended: the resolver recognizes exactly the five keys useTabs,
indentWidth, newLineKind, uppercase and linesBetweenQueries
(`recognizedKeys`); a recognized key supplied with a well-typed value is
consumed as a setting and yields no diagnostic naming it, while every key
outside this vocabulary (including inline, maxInlineBlock,
maxInlineArguments, maxInlineTopLevel and joinsAsTopLevel) is reported as
an unrecognized configuration key; the resolved `Configuration` carries
only the five corresponding fields. -/
theorem resolve_config_recognized_keys (m : ConfigKeyMap) (g : GlobalConfiguration) :
    (∀ k v, k ∈ recognizedKeys → lookupKey m k = some v → isValidValue k v = true →
      k ∉ (resolve_config m g).diagnostics.map Diagnostic.property_name) ∧
    (∀ k, k ∈ m.map Prod.fst → k ∉ recognizedKeys →
      k ∈ (resolve_config m g).diagnostics.map Diagnostic.property_name) := by
  constructor
  · intro k v hk hl hv hmem
    rw [resolve_config_diag_names] at hmem
    rcases List.mem_append.mp hmem with hbad | hunk
    · have hpred := (List.mem_filter.mp hbad).2
      rw [hl] at hpred
      simp [hv] at hpred
    · obtain ⟨p, hp, hpk⟩ := List.mem_map.mp hunk
      have h2 := (List.mem_filter.mp hp).2
      rw [hpk] at h2
      have h3 := (isRecognized_iff k).mpr hk
      simp [h3] at h2
  · intro k hkm hknot
    rw [resolve_config_diag_names]
    apply List.mem_append_right
    obtain ⟨p, hp, hpk⟩ := List.mem_map.mp hkm
    apply List.mem_map.mpr
    refine ⟨p, List.mem_filter.mpr ⟨hp, ?_⟩, hpk⟩
    rw [hpk]
    simp only [Bool.not_eq_true']
    exact Bool.not_eq_true _ ▸ fun htrue => hknot ((isRecognized_iff k).mp htrue)

/-- Witness for C8 amended: a valid `useTabs` override produces no
diagnostic naming it, while the unknown key `junk` is reported. -/
theorem resolve_config_recognized_keys_witness :
    "useTabs" ∉ (resolve_config [("useTabs", ConfigKeyValue.bool true),
        ("junk", ConfigKeyValue.null)] emptyGlobalConfiguration).diagnostics.map
        Diagnostic.property_name ∧
    "junk" ∈ (resolve_config [("useTabs", ConfigKeyValue.bool true),
        ("junk", ConfigKeyValue.null)] emptyGlobalConfiguration).diagnostics.map
        Diagnostic.property_name := by
  have h := resolve_config_recognized_keys
    [("useTabs", ConfigKeyValue.bool true), ("junk", ConfigKeyValue.null)]
    emptyGlobalConfiguration
  exact ⟨h.1 "useTabs" (ConfigKeyValue.bool true) (by decide) rfl rfl,
    h.2 "junk" (by decide) (by decide)⟩

/-- C9: after resolution (with well-formed global settings) the
indent_width field always lies in 1..255; an override of 0 fails range
validation, is reported as a diagnostic naming indentWidth, and the field
falls back per the precedence chain (global value, else the default 2). -/
theorem resolve_config_indent_width_range (m : ConfigKeyMap) (g : GlobalConfiguration)
    (hg : ∀ n, g.indent_width = some n → 1 ≤ n ∧ n ≤ 255) :
    (1 ≤ (resolve_config m g).config.indent_width ∧
      (resolve_config m g).config.indent_width ≤ 255) ∧
    (lookupKey m "indentWidth" = some (ConfigKeyValue.int 0) →
      "indentWidth" ∈ (resolve_config m g).diagnostics.map Diagnostic.property_name ∧
      (resolve_config m g).config.indent_width = g.indent_width.getD 2) := by
  have hdef : 1 ≤ g.indent_width.getD 2 ∧ g.indent_width.getD 2 ≤ 255 := by
    cases hgw : g.indent_width with
    | none => simp
    | some n => simpa using hg n hgw
  constructor
  · rw [resolve_config_eq]
    show 1 ≤ fieldValue m "indentWidth" (g.indent_width.getD 2) parseIndentWidth ∧
      fieldValue m "indentWidth" (g.indent_width.getD 2) parseIndentWidth ≤ 255
    cases hl : lookupKey m "indentWidth" with
    | none => simpa [fieldValue, hl] using hdef
    | some v =>
      cases hp : parseIndentWidth v with
      | none => simpa [fieldValue, hl, hp] using hdef
      | some a =>
        have := parseIndentWidth_range v a hp
        simpa [fieldValue, hl, hp] using this
  · intro hl
    constructor
    · rw [resolve_config_diag_names]
      apply List.mem_append_left
      apply List.mem_filter.mpr
      refine ⟨by decide, ?_⟩
      rw [hl]
      rfl
    · rw [resolve_config_eq]
      show fieldValue m "indentWidth" (g.indent_width.getD 2) parseIndentWidth
        = g.indent_width.getD 2
      exact fieldValue_of_absent_or_invalid m _ _ _ fun v hv => by
        rw [hv] at hl
        rw [Option.some.inj hl]
        rfl

/-- Witness for C9: an indentWidth override of 0 with empty globals yields
the diagnostic and the default 2, which lies in 1..255. -/
theorem resolve_config_indent_width_range_witness :
    (1 ≤ (resolve_config [("indentWidth", ConfigKeyValue.int 0)]
        emptyGlobalConfiguration).config.indent_width ∧
      (resolve_config [("indentWidth", ConfigKeyValue.int 0)]
        emptyGlobalConfiguration).config.indent_width ≤ 255) ∧
    ("indentWidth" ∈ (resolve_config [("indentWidth", ConfigKeyValue.int 0)]
        emptyGlobalConfiguration).diagnostics.map Diagnostic.property_name ∧
      (resolve_config [("indentWidth", ConfigKeyValue.int 0)]
        emptyGlobalConfiguration).config.indent_width
        = emptyGlobalConfiguration.indent_width.getD 2) := by
  have h := resolve_config_indent_width_range [("indentWidth", ConfigKeyValue.int 0)]
    emptyGlobalConfiguration (fun n hn => nomatch hn)
  exact ⟨h.1, h.2 rfl⟩

/-! ## Claim theorems: format pipeline -/

/-- C1: running the pipeline a second time on its own output (the changed
text, or the input itself when the first run was unchanged) with the same
configuration returns Unchanged, provided the opaque external formatter
returns the same formatted text for the normalized output as for the
original input (the only property of the out-of-scope formatter the
pipeline's idempotence rests on). -/
theorem formatText_idempotent (F : FormatOptions → List Char → List Char)
    (c : Configuration) (t : List Char) (out : Option (List Char))
    (h1 : formatText F t c = Except.ok out)
    (h2 : F (deriveOptions c) (out.getD t) = F (deriveOptions c) t) :
    formatText F (out.getD t) c = Except.ok none := by
  cases out with
  | none => exact h1
  | some s =>
    have hs : applyNewLineKind (ensureTrailingNewline (F (deriveOptions c) t))
        c.new_line_kind = s := by
      simp only [formatText] at h1
      split at h1
      · exact absurd h1 (by simp)
      · simpa using h1
    have h2' : F (deriveOptions c) s = F (deriveOptions c) t := h2
    show formatText F s c = Except.ok none
    simp only [formatText, h2', hs]
    simp

/-- Witness for C1: a constant formatter; the first run changes the text,
the second run on the changed output is unchanged. -/
theorem formatText_idempotent_witness :
    formatText (fun _ _ => ['x']) [] cfgLf = Except.ok (some ['x', '\n']) ∧
    formatText (fun _ _ => ['x']) ['x', '\n'] cfgLf = Except.ok none :=
  ⟨rfl, formatText_idempotent (fun _ _ => ['x']) cfgLf [] (some ['x', '\n']) rfl rfl⟩

/-- C3: the target line ending is resolved from `config.new_line_kind`
against the post-trailing-newline text; when it resolves to a bare
line-feed the text has every CRLF pair collapsed to LF, and otherwise the
text is first normalized to bare LF and then every LF is expanded to a
CRLF pair. -/
theorem formatText_line_ending_selection (F : FormatOptions → List Char → List Char)
    (c : Configuration) (t : List Char) :
    (formatText F t c =
      (if applyNewLineKind (ensureTrailingNewline (F (deriveOptions c) t))
            c.new_line_kind = t
        then Except.ok none
        else Except.ok (some (applyNewLineKind
          (ensureTrailingNewline (F (deriveOptions c) t)) c.new_line_kind)))) ∧
    (∀ s, resolveNewLineKind s c.new_line_kind = ['\n'] →
      applyNewLineKind s c.new_line_kind = replaceCrlfLf s) ∧
    (∀ s, resolveNewLineKind s c.new_line_kind ≠ ['\n'] →
      applyNewLineKind s c.new_line_kind = replaceLfCrlf (replaceCrlfLf s)) := by
  refine ⟨rfl, fun s h => ?_, fun s h => ?_⟩
  · unfold applyNewLineKind
    rw [if_pos h]
  · unfold applyNewLineKind
    rw [if_neg h]

/-- Witness for C3: both branches of the line-ending step at concrete
inputs. -/
theorem formatText_line_ending_selection_witness :
    applyNewLineKind ['a', '\n'] NewLineKind.LineFeed = replaceCrlfLf ['a', '\n'] ∧
    applyNewLineKind ['a', '\n'] NewLineKind.CarriageReturnLineFeed
      = replaceLfCrlf (replaceCrlfLf ['a', '\n']) :=
  ⟨(formatText_line_ending_selection (fun _ _ => []) cfgLf []).2.1 ['a', '\n'] rfl,
   (formatText_line_ending_selection (fun _ _ => []) cfgCrlf []).2.2 ['a', '\n']
     (by decide)⟩

/-- C4: when the formatter output does not end in a line-feed exactly one
line-feed is appended (and none when it already does); consequently every
changed output of the pipeline ends in a line-feed, and when the pipeline
reports Unchanged the input text itself ends in a line-feed. -/
theorem formatText_trailing_newline (F : FormatOptions → List Char → List Char)
    (c : Configuration) (t : List Char) :
    (∀ s : List Char, s.getLast? ≠ some '\n' →
      ensureTrailingNewline s = s ++ ['\n']) ∧
    (∀ s : List Char, s.getLast? = some '\n' → ensureTrailingNewline s = s) ∧
    (∀ out, formatText F t c = Except.ok (some out) → out.getLast? = some '\n') ∧
    (formatText F t c = Except.ok none → t.getLast? = some '\n') := by
  refine ⟨fun s h => by simp [ensureTrailingNewline, h],
    fun s h => by simp [ensureTrailingNewline, h], ?_, ?_⟩
  · intro out hout
    have heq : applyNewLineKind (ensureTrailingNewline (F (deriveOptions c) t))
        c.new_line_kind = out := by
      simp only [formatText] at hout
      split at hout
      · exact absurd hout (by simp)
      · simpa using hout
    rw [← heq]
    exact getLast?_applyNewLineKind _ _ (getLast?_ensureTrailingNewline _)
  · intro hnone
    have heq : applyNewLineKind (ensureTrailingNewline (F (deriveOptions c) t))
        c.new_line_kind = t := by
      simp only [formatText] at hnone
      split at hnone
      · assumption
      · exact absurd hnone (by simp)
    rw [← heq]
    exact getLast?_applyNewLineKind _ _ (getLast?_ensureTrailingNewline _)

/-- Witness for C4: the append case of the trailing-newline step and the
newline-terminated changed output at concrete inputs. -/
theorem formatText_trailing_newline_witness :
    ensureTrailingNewline ['x'] = ['x'] ++ ['\n'] ∧
    (['x', '\n'] : List Char).getLast? = some '\n' := by
  have h := formatText_trailing_newline (fun _ _ => ['x']) cfgLf []
  exact ⟨h.1 ['x'] (by decide), h.2.2.1 ['x', '\n'] rfl⟩

/-- C5: the pipeline returns Unchanged exactly when the fully normalized
text is identical to the original input, and a Changed result never carries
content identical to the input. -/
theorem formatText_unchanged_iff (F : FormatOptions → List Char → List Char)
    (c : Configuration) (t : List Char) :
    (formatText F t c = Except.ok none ↔
      applyNewLineKind (ensureTrailingNewline (F (deriveOptions c) t))
        c.new_line_kind = t) ∧
    (∀ s, formatText F t c = Except.ok (some s) → s ≠ t) := by
  constructor
  · simp only [formatText]
    split
    · rename_i h
      simp [h]
    · rename_i h
      simp [h]
  · intro s hs
    simp only [formatText] at hs
    split at hs
    · exact absurd hs (by simp)
    · rename_i h
      rw [← Option.some.inj (Except.ok.inj hs)]
      exact h

/-- Witness for C5: already-normalized input is reported Unchanged. -/
theorem formatText_unchanged_iff_witness :
    formatText (fun _ _ => ['x']) ['x', '\n'] cfgLf = Except.ok none :=
  (formatText_unchanged_iff (fun _ _ => ['x']) cfgLf ['x', '\n']).1.mpr rfl

/-- C10: the pipeline is total over its error channel — for every formatter,
input and configuration it returns Ok (the trailing-newline and line-ending
steps are total and the modelled formatter call is infallible), so the
error case of the Result signature is unreachable. -/
theorem formatText_total (F : FormatOptions → List Char → List Char)
    (c : Configuration) (t : List Char) :
    ∃ out, formatText F t c = Except.ok out := by
  simp only [formatText]
  split
  · exact ⟨none, rfl⟩
  · exact ⟨some _, rfl⟩
